import Mathlib

/-!
# Verification of the go-qrcode SVG rendering engine

Shallow embedding of the rendering code in `writer/standard/image_format.go`,
`writer/standard/image_qr_shape.go` and `writer/standard/imgkit` of the
Mictilt/go-qrcode repository, together with proofs settling the frozen claims
about the rectangle-decomposition engine, the SVG path recorder, the canvas
size formulas, the gradient projector, the halftone module pass, the circle
shape and the binarization preprocessor.

Modelling conventions:
* Pixel colors are modelled at the 8-bit per-channel level, matching the
  code's own comparisons which all reduce colors with `uint8(c.RGBA() >> 8)`
  (or read `image.RGBA` bytes directly, which yields the same four bytes).
* Image bounds are normalized so that `bounds.Min = (0, 0)`; every pixel
  access in the Go decomposition code is expressed relative to `bounds.Min`,
  so this is a plain change of coordinates.
* Go slices of drawing-command strings are modelled as lists of structured
  command values; the numeric formatting (`fmt.Sprintf("%.2f", …)`) is not
  modelled, only the commands and attributes it serializes.
-/

namespace GoQrcode

/-- One 8-bit RGBA color, the quadruple `uint8(r>>8), uint8(g>>8), uint8(b>>8),
uint8(a>>8)` the Go code extracts from `color.Color.RGBA()`. -/
structure Color where
  r : ℕ
  g : ℕ
  b : ℕ
  a : ℕ
deriving DecidableEq, Repr

/-- The background-elision rule used throughout `image_format.go`:
`a8 == 0 || (r8 == 255 && g8 == 255 && b8 == 255)`. -/
def isBackground (c : Color) : Bool :=
  decide (c.a = 0) || (decide (c.r = 255) && decide (c.g = 255) && decide (c.b = 255))

/-- A raster image with bounds normalized to origin `(0, 0)`:
`w = bounds.Dx()`, `h = bounds.Dy()`, and `pix x y` the 8-bit RGBA value of
the pixel at `(bounds.Min.X + x, bounds.Min.Y + y)`. -/
structure Img where
  w : ℕ
  h : ℕ
  pix : ℕ → ℕ → Color

/-- The `rectInfo` record of `image_format.go`: one axis-aligned rectangle of
uniform color (the Go struct stores the color as four separate `uint8` fields
`r, g, b, a`, bundled here into one `Color`). -/
structure RectInfo where
  x : ℕ
  y : ℕ
  width : ℕ
  height : ℕ
  color : Color
deriving DecidableEq, Repr

/-- The pixel set of a rectangle. -/
def RectInfo.covers (r : RectInfo) (p : ℕ × ℕ) : Prop :=
  r.x ≤ p.1 ∧ p.1 < r.x + r.width ∧ r.y ≤ p.2 ∧ p.2 < r.y + r.height

instance (r : RectInfo) (p : ℕ × ℕ) : Decidable (r.covers p) := by
  unfold RectInfo.covers; infer_instance

/-- Some rectangle of the list covers pixel `p`. -/
def covered (rs : List RectInfo) (p : ℕ × ℕ) : Prop :=
  ∃ r ∈ rs, r.covers p

/-- Some rectangle of the list covers pixel `p` and records color `c` for it:
the per-pixel color map induced by a rectangle list. -/
def coveredWith (rs : List RectInfo) (p : ℕ × ℕ) (c : Color) : Prop :=
  ∃ r ∈ rs, r.covers p ∧ r.color = c

/-- No two distinct rectangles of the list share a pixel. -/
def PairwiseDisjoint (rs : List RectInfo) : Prop :=
  rs.Pairwise (fun r₁ r₂ => ∀ p, ¬(r₁.covers p ∧ r₂.covers p))

/-- Length of the maximal prefix `k = 0, 1, …` (`k < n`) on which `ok` holds:
the number of iterations a Go `for … { if !ok break; … }` loop performs when
at most `n` iterations are possible. -/
def okRun (ok : ℕ → Bool) : ℕ → ℕ
  | 0 => 0
  | n + 1 => if ok 0 then okRun (fun k => ok (k + 1)) n + 1 else 0

theorem okRun_le (ok : ℕ → Bool) (n : ℕ) : okRun ok n ≤ n := by
  induction n generalizing ok with
  | zero => simp [okRun]
  | succ n ih =>
    simp only [okRun]
    split
    · exact Nat.succ_le_succ (ih _)
    · exact Nat.zero_le _

theorem okRun_prefix (ok : ℕ → Bool) (n : ℕ) :
    ∀ k, k < okRun ok n → ok k = true := by
  induction n generalizing ok with
  | zero => simp [okRun]
  | succ n ih =>
    intro k hk
    simp only [okRun] at hk
    split at hk
    · cases k with
      | zero => assumption
      | succ k => exact ih (fun k => ok (k + 1)) k (Nat.lt_of_succ_lt_succ hk)
    · exact absurd hk (Nat.not_lt_zero k)

/-- State of a decomposition scan: the visited bitmap (as a characteristic
function on normalized pixel coordinates) and the rectangles collected so
far. -/
structure MeshState where
  visited : ℕ → ℕ → Bool
  rects : List RectInfo

/-- Initial scan state: `visited := make([]bool, width*height)`, no rects. -/
def initState : MeshState := ⟨fun _ _ => false, []⟩

/-- `markVisited(x, y, w, h)`: set the visited bit of every pixel of the
rectangle. -/
def markVisited (vis : ℕ → ℕ → Bool) (x y w h : ℕ) : ℕ → ℕ → Bool :=
  fun a b => vis a b || decide (x ≤ a ∧ a < x + w ∧ y ≤ b ∧ b < y + h)

/-- The greedy horizontal expansion of `optimizeRectangles` (and the run
extension of phase 2 of the four-phase algorithm, which is literally the same
loop): starting from width `1`, extend while `x+w < bounds.Max.X`, the pixel
`(x+w, y)` is unvisited and exactly color-equal (including alpha) to the seed
pixel. -/
def greedyW (img : Img) (vis : ℕ → ℕ → Bool) (x y : ℕ) : ℕ :=
  1 + okRun
    (fun k => !vis (x + 1 + k) y && decide (img.pix (x + 1 + k) y = img.pix x y))
    (img.w - (x + 1))

/-- One row matches during vertical expansion: for all `k < w` the pixel
`(x+k, row)` is unvisited and color-equal to the seed. -/
def rowMatch (img : Img) (vis : ℕ → ℕ → Bool) (x y w row : ℕ) : Bool :=
  (List.range w).all
    (fun k => !vis (x + k) row && decide (img.pix (x + k) row = img.pix x y))

/-- The greedy vertical expansion of `optimizeRectangles`: starting from
height `1`, extend while `y+h < bounds.Max.Y` and the whole next row segment
matches. -/
def greedyH (img : Img) (vis : ℕ → ℕ → Bool) (x y w : ℕ) : ℕ :=
  1 + okRun (fun k => rowMatch img vis x y w (y + 1 + k)) (img.h - (y + 1))

/-- The body of the doubly-nested scan loop of `optimizeRectangles` (greedy
meshing) at pixel `p`: skip visited pixels, skip background pixels, otherwise
expand right then down, record the rectangle and mark it visited. -/
def greedyStep (img : Img) (s : MeshState) (p : ℕ × ℕ) : MeshState :=
  if s.visited p.1 p.2 then s
  else if isBackground (img.pix p.1 p.2) then s
  else
    let w := greedyW img s.visited p.1 p.2
    let h := greedyH img s.visited p.1 p.2 w
    { visited := markVisited s.visited p.1 p.2 w h
      rects := s.rects ++ [⟨p.1, p.2, w, h, img.pix p.1 p.2⟩] }

/-- Row-major enumeration of the pixel grid (the `for y … for x …` double
loop over bounds). -/
def rowMajor (w h : ℕ) : List (ℕ × ℕ) :=
  (List.range h).flatMap (fun y => (List.range w).map (fun x => (x, y)))

/-- `optimizeRectangles` of `svg_test/rectangles_bench_test.go` (the greedy
meshing decomposition, also the one used by the production
`svgEncoder.EncodeWithOptions`): single row-major pass over all pixels. -/
def optimizeRectangles (img : Img) : List RectInfo :=
  ((rowMajor img.w img.h).foldl (greedyStep img) initState).rects

theorem mem_rowMajor {w h : ℕ} {p : ℕ × ℕ} :
    p ∈ rowMajor w h ↔ p.1 < w ∧ p.2 < h := by
  cases p with
  | mk x y =>
    simp only [rowMajor, List.mem_flatMap, List.mem_map, List.mem_range, Prod.mk.injEq]
    constructor
    · rintro ⟨y', hy', x', hx', hxx, hyy⟩
      subst hxx; subst hyy; exact ⟨hx', hy'⟩
    · rintro ⟨hx, hy⟩
      exact ⟨y, hy, x, hx, rfl, rfl⟩

/-- A rectangle is well-formed for an image: positive extent, within bounds,
non-background recorded color, and every covered pixel exactly color-equal
(including alpha) to the recorded color. -/
def RectOK (img : Img) (r : RectInfo) : Prop :=
  0 < r.width ∧ 0 < r.height ∧ r.x + r.width ≤ img.w ∧ r.y + r.height ≤ img.h ∧
  isBackground r.color = false ∧
  ∀ p, r.covers p → img.pix p.1 p.2 = r.color

/-- Scan invariant: the visited bitmap is exactly the union of the collected
rectangles, which are pairwise disjoint and well-formed. -/
def Inv (img : Img) (s : MeshState) : Prop :=
  (∀ p : ℕ × ℕ, s.visited p.1 p.2 = true ↔ covered s.rects p) ∧
  PairwiseDisjoint s.rects ∧
  ∀ r ∈ s.rects, RectOK img r

theorem inv_init (img : Img) : Inv img initState := by
  refine ⟨fun p => ?_, List.Pairwise.nil, by simp [initState]⟩
  simp [initState, covered]

/-- Recording a fresh (entirely unvisited), well-formed rectangle and marking
its pixels visited preserves the scan invariant. -/
theorem inv_addRect {img : Img} {s : MeshState} {r : RectInfo}
    (hInv : Inv img s) (hok : RectOK img r)
    (hfresh : ∀ p, r.covers p → s.visited p.1 p.2 = false) :
    Inv img ⟨markVisited s.visited r.x r.y r.width r.height, s.rects ++ [r]⟩ := by
  obtain ⟨h1, h2, h3⟩ := hInv
  have hcov : ∀ a b : ℕ,
      (r.x ≤ a ∧ a < r.x + r.width ∧ r.y ≤ b ∧ b < r.y + r.height) ↔ r.covers (a, b) :=
    fun a b => Iff.rfl
  refine ⟨?_, ?_, ?_⟩
  · intro p
    simp only [markVisited, Bool.or_eq_true, decide_eq_true_eq, covered, List.mem_append,
      List.mem_singleton]
    constructor
    · rintro (hv | hc)
      · obtain ⟨r', hr', hcov'⟩ := (h1 p).1 hv
        exact ⟨r', Or.inl hr', hcov'⟩
      · exact ⟨r, Or.inr rfl, (hcov p.1 p.2).1 hc⟩
    · rintro ⟨r', hr' | hr', hcov'⟩
      · exact Or.inl ((h1 p).2 ⟨r', hr', hcov'⟩)
      · subst hr'
        exact Or.inr ((hcov p.1 p.2).2 hcov')
  · rw [PairwiseDisjoint, List.pairwise_append]
    refine ⟨h2, List.pairwise_singleton _ _, ?_⟩
    intro r' hr' r'' hr''
    rw [List.mem_singleton] at hr''
    subst hr''
    rintro p ⟨hp', hp⟩
    have := hfresh p hp
    have := (h1 p).2 ⟨r', hr', hp'⟩
    simp_all
  · intro r' hr'
    rcases List.mem_append.1 hr' with h | h
    · exact h3 r' h
    · rw [List.mem_singleton.1 h]; exact hok

theorem greedyW_pos (img : Img) (vis : ℕ → ℕ → Bool) (x y : ℕ) :
    0 < greedyW img vis x y := by
  unfold greedyW; omega

theorem greedyH_pos (img : Img) (vis : ℕ → ℕ → Bool) (x y w : ℕ) :
    0 < greedyH img vis x y w := by
  unfold greedyH; omega

theorem greedyW_le {img : Img} {vis : ℕ → ℕ → Bool} {x y : ℕ} (hx : x < img.w) :
    x + greedyW img vis x y ≤ img.w := by
  have h := okRun_le
    (fun k => !vis (x + 1 + k) y && decide (img.pix (x + 1 + k) y = img.pix x y))
    (img.w - (x + 1))
  unfold greedyW
  omega

theorem greedyH_le {img : Img} {vis : ℕ → ℕ → Bool} {x y w : ℕ} (hy : y < img.h) :
    y + greedyH img vis x y w ≤ img.h := by
  have h := okRun_le (fun k => rowMatch img vis x y w (y + 1 + k)) (img.h - (y + 1))
  unfold greedyH
  omega

theorem greedyW_spec {img : Img} {vis : ℕ → ℕ → Bool} {x y : ℕ} :
    ∀ k, 0 < k → k < greedyW img vis x y →
      vis (x + k) y = false ∧ img.pix (x + k) y = img.pix x y := by
  intro k hk0 hk
  have h := okRun_prefix
    (fun k => !vis (x + 1 + k) y && decide (img.pix (x + 1 + k) y = img.pix x y))
    (img.w - (x + 1)) (k - 1) (by unfold greedyW at hk; omega)
  simp only [Bool.and_eq_true, Bool.not_eq_true', decide_eq_true_eq] at h
  have hk' : x + 1 + (k - 1) = x + k := by omega
  rw [hk'] at h
  exact h

theorem rowMatch_spec {img : Img} {vis : ℕ → ℕ → Bool} {x y w row : ℕ}
    (h : rowMatch img vis x y w row = true) :
    ∀ k, k < w → vis (x + k) row = false ∧ img.pix (x + k) row = img.pix x y := by
  intro k hk
  simp only [rowMatch, List.all_eq_true, List.mem_range, Bool.and_eq_true,
    Bool.not_eq_true', decide_eq_true_eq] at h
  exact h k hk

theorem greedyH_spec {img : Img} {vis : ℕ → ℕ → Bool} {x y w : ℕ} :
    ∀ j, 0 < j → j < greedyH img vis x y w →
      rowMatch img vis x y w (y + j) = true := by
  intro j hj0 hj
  have h := okRun_prefix (fun k => rowMatch img vis x y w (y + 1 + k))
    (img.h - (y + 1)) (j - 1) (by unfold greedyH at hj; omega)
  have h' : rowMatch img vis x y w (y + 1 + (j - 1)) = true := h
  have hj' : y + 1 + (j - 1) = y + j := by omega
  rw [hj'] at h'
  exact h'

/-- Every pixel of the greedily expanded rectangle is unvisited and exactly
color-equal to its seed pixel. -/
theorem greedy_rect_spec (img : Img) {vis : ℕ → ℕ → Bool} {x y : ℕ}
    (hvis : vis x y = false) :
    ∀ a b, x ≤ a → a < x + greedyW img vis x y → y ≤ b →
      b < y + greedyH img vis x y (greedyW img vis x y) →
      vis a b = false ∧ img.pix a b = img.pix x y := by
  intro a b hxa haw hyb hbh
  obtain ⟨k, rfl⟩ : ∃ k, a = x + k := ⟨a - x, by omega⟩
  obtain ⟨j, rfl⟩ : ∃ j, b = y + j := ⟨b - y, by omega⟩
  rcases Nat.eq_zero_or_pos j with hj | hj
  · subst hj
    simp only [Nat.add_zero]
    rcases Nat.eq_zero_or_pos k with hk | hk
    · subst hk
      simp only [Nat.add_zero]
      exact ⟨hvis, trivial⟩
    · exact greedyW_spec k hk (by omega)
  · have hrm := @greedyH_spec img vis x y (greedyW img vis x y) j hj (by omega)
    exact rowMatch_spec hrm k (by omega)

theorem greedyStep_inv {img : Img} {s : MeshState} {p : ℕ × ℕ}
    (hp : p.1 < img.w ∧ p.2 < img.h) (hInv : Inv img s) :
    Inv img (greedyStep img s p) := by
  unfold greedyStep
  split
  · exact hInv
  split
  · exact hInv
  rename_i hvis hbg
  rw [Bool.not_eq_true] at hvis hbg
  refine @inv_addRect img s
    ⟨p.1, p.2, greedyW img s.visited p.1 p.2,
     greedyH img s.visited p.1 p.2 (greedyW img s.visited p.1 p.2), img.pix p.1 p.2⟩
    hInv ⟨greedyW_pos img s.visited p.1 p.2, greedyH_pos img s.visited p.1 p.2 _,
      greedyW_le hp.1, greedyH_le hp.2, hbg, ?_⟩ ?_
  · intro q hq
    unfold RectInfo.covers at hq
    exact (greedy_rect_spec img hvis q.1 q.2 hq.1 hq.2.1 hq.2.2.1 hq.2.2.2).2
  · intro q hq
    unfold RectInfo.covers at hq
    exact (greedy_rect_spec img hvis q.1 q.2 hq.1 hq.2.1 hq.2.2.1 hq.2.2.2).1

theorem greedyStep_mono {img : Img} {s : MeshState} {p : ℕ × ℕ} {a b : ℕ}
    (h : s.visited a b = true) : (greedyStep img s p).visited a b = true := by
  unfold greedyStep
  split
  · exact h
  split
  · exact h
  · simp [markVisited, h]

/-- After the scan step at a non-background pixel, that pixel is visited. -/
theorem greedyStep_self {img : Img} {s : MeshState} {p : ℕ × ℕ}
    (hbg : isBackground (img.pix p.1 p.2) = false) :
    (greedyStep img s p).visited p.1 p.2 = true := by
  unfold greedyStep
  split
  · assumption
  split
  · rename_i h; rw [hbg] at h; exact absurd h Bool.false_ne_true
  · have hw := greedyW_pos img s.visited p.1 p.2
    have hh := greedyH_pos img s.visited p.1 p.2 (greedyW img s.visited p.1 p.2)
    simp only [markVisited, Bool.or_eq_true, decide_eq_true_eq]
    exact Or.inr ⟨le_refl _, by omega, le_refl _, by omega⟩

theorem foldl_greedyStep_inv {img : Img} :
    ∀ (l : List (ℕ × ℕ)) (s : MeshState),
      (∀ p ∈ l, p.1 < img.w ∧ p.2 < img.h) → Inv img s →
      Inv img (l.foldl (greedyStep img) s)
  | [], _, _, hs => hs
  | p :: l, s, hl, hs => by
      simp only [List.foldl_cons]
      exact foldl_greedyStep_inv l _ (fun q hq => hl q (List.mem_cons_of_mem _ hq))
        (greedyStep_inv (hl p (List.mem_cons_self _ _)) hs)

theorem foldl_greedyStep_mono {img : Img} :
    ∀ (l : List (ℕ × ℕ)) (s : MeshState) {a b : ℕ},
      s.visited a b = true → (l.foldl (greedyStep img) s).visited a b = true
  | [], _, _, _, h => h
  | p :: l, s, _, _, h => by
      simp only [List.foldl_cons]
      exact foldl_greedyStep_mono l _ (greedyStep_mono h)

/-- Every non-background pixel scanned by the pass ends up visited. -/
theorem foldl_greedyStep_covers {img : Img} :
    ∀ (l : List (ℕ × ℕ)) (s : MeshState),
      ∀ p ∈ l, isBackground (img.pix p.1 p.2) = false →
      (l.foldl (greedyStep img) s).visited p.1 p.2 = true := by
  intro l
  induction l with
  | nil => intro s p hp; exact absurd hp (List.not_mem_nil p)
  | cons q l ih =>
    intro s p hp hbg
    simp only [List.foldl_cons]
    rcases List.mem_cons.1 hp with rfl | hp'
    · exact foldl_greedyStep_mono l _ (greedyStep_self hbg)
    · exact ih _ p hp' hbg

/-- For a list of well-formed rectangles, the per-pixel color map is the
covering relation paired with the image's own color. -/
theorem coveredWith_char {img : Img} {rs : List RectInfo}
    (hok : ∀ r ∈ rs, RectOK img r) (p : ℕ × ℕ) (c : Color) :
    coveredWith rs p c ↔ covered rs p ∧ c = img.pix p.1 p.2 := by
  constructor
  · rintro ⟨r, hr, hcov, rfl⟩
    exact ⟨⟨r, hr, hcov⟩, ((hok r hr).2.2.2.2.2 p hcov).symm⟩
  · rintro ⟨⟨r, hr, hcov⟩, rfl⟩
    exact ⟨r, hr, hcov, ((hok r hr).2.2.2.2.2 p hcov).symm⟩

theorem optimizeRectangles_inv (img : Img) :
    Inv img ((rowMajor img.w img.h).foldl (greedyStep img) initState) :=
  foldl_greedyStep_inv _ _ (fun _ hp => mem_rowMajor.1 hp) (inv_init img)

/-- Coverage characterization for the greedy mesher: its rectangles cover
exactly the in-bounds non-background pixels. -/
theorem optimizeRectangles_covered (img : Img) (p : ℕ × ℕ) :
    covered (optimizeRectangles img) p ↔
      p.1 < img.w ∧ p.2 < img.h ∧ isBackground (img.pix p.1 p.2) = false := by
  obtain ⟨h1, _, h3⟩ := optimizeRectangles_inv img
  constructor
  · rintro ⟨r, hr, hcov⟩
    obtain ⟨_, _, hbw, hbh, hnbg, hcol⟩ := h3 r hr
    have hc := hcov
    unfold RectInfo.covers at hc
    refine ⟨by omega, by omega, ?_⟩
    rw [hcol p hcov]
    exact hnbg
  · rintro ⟨hx, hy, hbg⟩
    exact (h1 p).1
      (foldl_greedyStep_covers _ _ p (mem_rowMajor.2 ⟨hx, hy⟩) hbg)

/-- Per-pixel color map of the greedy mesher. -/
theorem optimizeRectangles_coveredWith (img : Img) (p : ℕ × ℕ) (c : Color) :
    coveredWith (optimizeRectangles img) p c ↔
      p.1 < img.w ∧ p.2 < img.h ∧ isBackground (img.pix p.1 p.2) = false ∧
        c = img.pix p.1 p.2 := by
  obtain ⟨_, _, h3⟩ := optimizeRectangles_inv img
  have h3' : ∀ r ∈ optimizeRectangles img, RectOK img r := h3
  rw [coveredWith_char h3', optimizeRectangles_covered]
  tauto

/-! ## The four-phase `oldOptimizeRectangles` -/

/-- Phase-1 scan positions of the four-phase algorithm: the corners `(x, y)`
of the `for y += 3 … for x += 3` double loop, i.e. multiples of 3 with
`y ≤ bounds.Max.Y - 3` and `x ≤ bounds.Max.X - 3` (the loop runs `h / 3`
times in `y` and `w / 3` times in `x`, since `(h - 3) / 3 + 1 = h / 3` for
`h ≥ 3` and the loop body never runs for `h < 3`). -/
def phase1Positions (w h : ℕ) : List (ℕ × ℕ) :=
  (List.range (h / 3)).flatMap (fun j => (List.range (w / 3)).map (fun i => (3 * i, 3 * j)))

/-- The 3×3 uniformity check of phase 1: all nine pixels unvisited and
color-equal to the corner `(x, y)` (the Go loop checks `visited` and then
color for `dy, dx ∈ {0,1,2}`, including the corner itself). -/
def uniform3x3 (img : Img) (vis : ℕ → ℕ → Bool) (x y : ℕ) : Bool :=
  (List.range 3).all fun dy => (List.range 3).all fun dx =>
    !vis (x + dx) (y + dy) && decide (img.pix (x + dx) (y + dy) = img.pix x y)

/-- Phase-1 step at corner `(x, y)`: skip background corners; if the 3×3
block is uniform and unvisited, record it and mark it visited. -/
def phase1Step (img : Img) (s : MeshState) (p : ℕ × ℕ) : MeshState :=
  if isBackground (img.pix p.1 p.2) then s
  else if uniform3x3 img s.visited p.1 p.2 then
    { visited := markVisited s.visited p.1 p.2 3 3
      rects := s.rects ++ [⟨p.1, p.2, 3, 3, img.pix p.1 p.2⟩] }
  else s

/-- Phase 2 (run-length cleanup) over the row `y`, starting at column `x`,
with `fuel` bounding the remaining loop iterations (`fuel = w` suffices at
entry since `x` advances by at least 1 per iteration): skip visited or
background pixels, otherwise emit the maximal unvisited color-run as a
height-1 rectangle and jump past it. Phase 2 of the Go code reads but never
updates the visited bitmap; its run extension is the same loop as the greedy
mesher's horizontal expansion (`greedyW`). -/
def phase2Row (img : Img) (vis : ℕ → ℕ → Bool) (y : ℕ) : ℕ → ℕ → List RectInfo
  | _, 0 => []
  | x, fuel + 1 =>
    if x < img.w then
      if vis x y || isBackground (img.pix x y) then phase2Row img vis y (x + 1) fuel
      else ⟨x, y, greedyW img vis x y, 1, img.pix x y⟩ ::
        phase2Row img vis y (x + greedyW img vis x y) fuel
    else []

/-- Rectangles collected by phases 1 and 2 of `oldOptimizeRectangles`, in
emission order: the 3×3 blocks, then the per-row runs. -/
def oldInitialRects (img : Img) : List RectInfo :=
  let s1 := (phase1Positions img.w img.h).foldl (phase1Step img) initState
  s1.rects ++ (List.range img.h).flatMap (fun y => phase2Row img s1.visited y 0 img.w)

/-- Phase-3 fold: absorb `next` into `curr` whenever it is the exact right
neighbor with the same row, height and color, else push `curr` and continue
from `next`. -/
def mergeHRun : RectInfo → List RectInfo → List RectInfo
  | curr, [] => [curr]
  | curr, next :: rest =>
    if curr.y = next.y ∧ curr.height = next.height ∧ curr.x + curr.width = next.x ∧
        curr.color = next.color then
      mergeHRun { curr with width := curr.width + next.width } rest
    else
      curr :: mergeHRun next rest

/-- Phase-4 fold: absorb `next` into `curr` whenever it is the exact bottom
neighbor with the same column, width and color. -/
def mergeVRun : RectInfo → List RectInfo → List RectInfo
  | curr, [] => [curr]
  | curr, next :: rest =>
    if curr.x = next.x ∧ curr.width = next.width ∧ curr.y + curr.height = next.y ∧
        curr.color = next.color then
      mergeVRun { curr with height := curr.height + next.height } rest
    else
      curr :: mergeVRun next rest

/-- Phase 3 entry (`curr := rects[0]`, fold over the rest); empty input is
excluded by the caller's emptiness check but handled for totality. -/
def mergeH : List RectInfo → List RectInfo
  | [] => []
  | c :: rest => mergeHRun c rest

/-- Phase 4 entry (guarded by `len(mergedHorz) > 0` in the Go code). -/
def mergeV : List RectInfo → List RectInfo
  | [] => []
  | c :: rest => mergeVRun c rest

/-- The sort before phase 3: by `y`, then `x`. `sort.Slice` produces a sorted
permutation; `List.mergeSort` realizes one (only the permutation property is
used below). -/
def sortYX (rs : List RectInfo) : List RectInfo :=
  rs.mergeSort (fun a b => decide (a.y < b.y) || (decide (a.y = b.y) && decide (a.x ≤ b.x)))

/-- The sort before phase 4: by `x`, then `y`. -/
def sortXY (rs : List RectInfo) : List RectInfo :=
  rs.mergeSort (fun a b => decide (a.x < b.x) || (decide (a.x = b.x) && decide (a.y ≤ b.y)))

/-- `oldOptimizeRectangles` of `svg_test/rectangles_bench_test.go` (the
original four-phase decomposition, kept as a correctness reference): 3×3
block pre-pass, run-length cleanup, early return on an empty collection,
then sorted horizontal and vertical merge passes. -/
def oldOptimizeRectangles (img : Img) : List RectInfo :=
  if oldInitialRects img = [] then oldInitialRects img
  else mergeV (sortXY (mergeH (sortYX (oldInitialRects img))))

/-! ### Correctness of phases 1–2 -/

theorem mem_phase1Positions {w h : ℕ} {p : ℕ × ℕ} (hp : p ∈ phase1Positions w h) :
    p.1 + 3 ≤ w ∧ p.2 + 3 ≤ h := by
  simp only [phase1Positions, List.mem_flatMap, List.mem_map, List.mem_range] at hp
  obtain ⟨j, hj, i, hi, rfl⟩ := hp
  have hw : w / 3 * 3 ≤ w := Nat.div_mul_le_self w 3
  have hh : h / 3 * 3 ≤ h := Nat.div_mul_le_self h 3
  constructor
  · have : (i + 1) * 3 ≤ w / 3 * 3 := Nat.mul_le_mul_right 3 hi
    simp only
    omega
  · have : (j + 1) * 3 ≤ h / 3 * 3 := Nat.mul_le_mul_right 3 hj
    simp only
    omega

theorem uniform3x3_spec {img : Img} {vis : ℕ → ℕ → Bool} {x y : ℕ}
    (h : uniform3x3 img vis x y = true) :
    ∀ a b, x ≤ a → a < x + 3 → y ≤ b → b < y + 3 →
      vis a b = false ∧ img.pix a b = img.pix x y := by
  intro a b hxa ha3 hyb hb3
  simp only [uniform3x3, List.all_eq_true, List.mem_range, Bool.and_eq_true,
    Bool.not_eq_true', decide_eq_true_eq] at h
  have := h (b - y) (by omega) (a - x) (by omega)
  have hax : x + (a - x) = a := by omega
  have hby : y + (b - y) = b := by omega
  rw [hax, hby] at this
  exact this

theorem phase1Step_inv {img : Img} {s : MeshState} {p : ℕ × ℕ}
    (hp : p.1 + 3 ≤ img.w ∧ p.2 + 3 ≤ img.h) (hInv : Inv img s) :
    Inv img (phase1Step img s p) := by
  unfold phase1Step
  split
  · exact hInv
  split
  · rename_i hbg hu
    rw [Bool.not_eq_true] at hbg
    refine @inv_addRect img s ⟨p.1, p.2, 3, 3, img.pix p.1 p.2⟩ hInv
      ⟨by show (0:ℕ) < 3; decide, by show (0:ℕ) < 3; decide, hp.1, hp.2, hbg, ?_⟩ ?_
    · intro q hq
      unfold RectInfo.covers at hq
      exact (uniform3x3_spec hu q.1 q.2 hq.1 hq.2.1 hq.2.2.1 hq.2.2.2).2
    · intro q hq
      unfold RectInfo.covers at hq
      exact (uniform3x3_spec hu q.1 q.2 hq.1 hq.2.1 hq.2.2.1 hq.2.2.2).1
  · exact hInv

theorem foldl_phase1Step_inv {img : Img} :
    ∀ (l : List (ℕ × ℕ)) (s : MeshState),
      (∀ p ∈ l, p.1 + 3 ≤ img.w ∧ p.2 + 3 ≤ img.h) → Inv img s →
      Inv img (l.foldl (phase1Step img) s)
  | [], _, _, hs => hs
  | p :: l, s, hl, hs => by
      simp only [List.foldl_cons]
      exact foldl_phase1Step_inv l _ (fun q hq => hl q (List.mem_cons_of_mem _ hq))
        (phase1Step_inv (hl p (List.mem_cons_self _ _)) hs)

/-- The state after phase 1. -/
def phase1State (img : Img) : MeshState :=
  (phase1Positions img.w img.h).foldl (phase1Step img) initState

theorem phase1State_inv (img : Img) : Inv img (phase1State img) :=
  foldl_phase1Step_inv _ _ (fun _ hp => mem_phase1Positions hp) (inv_init img)

/-- Every rectangle emitted by the phase-2 row scan starts at or after the
scan position, lies in row `y` inside the image, has positive width, a
non-background color, and covers only unvisited pixels exactly color-equal to
its recorded color. -/
theorem phase2Row_shape {img : Img} {vis : ℕ → ℕ → Bool} {y : ℕ} :
    ∀ (fuel x : ℕ), ∀ r ∈ phase2Row img vis y x fuel,
      x ≤ r.x ∧ r.y = y ∧ r.height = 1 ∧ 0 < r.width ∧ r.x + r.width ≤ img.w ∧
      isBackground r.color = false ∧
      ∀ p, r.covers p → vis p.1 p.2 = false ∧ img.pix p.1 p.2 = r.color
  | 0, x => by simp [phase2Row]
  | fuel + 1, x => by
    intro r hr
    unfold phase2Row at hr
    split at hr
    · rename_i hxw
      split at hr
      · have := phase2Row_shape fuel (x + 1) r hr
        refine ⟨by omega, this.2⟩
      · rename_i hskip
        rw [Bool.not_eq_true, Bool.or_eq_false_iff] at hskip
        rcases List.mem_cons.1 hr with rfl | hr'
        · refine ⟨le_refl _, rfl, rfl, greedyW_pos img vis x y, greedyW_le hxw,
            hskip.2, ?_⟩
          intro q hq
          simp only [RectInfo.covers] at hq
          obtain ⟨hq1, hq2, hq3, hq4⟩ := hq
          obtain ⟨k, hk⟩ : ∃ k, q.1 = x + k := ⟨q.1 - x, by omega⟩
          have hqy : q.2 = y := by omega
          rcases Nat.eq_zero_or_pos k with hk0 | hk0
          · subst hk0
            simp only [Nat.add_zero] at hk
            rw [hk, hqy]
            exact ⟨hskip.1, rfl⟩
          · have := @greedyW_spec img vis x y k hk0 (by omega)
            rw [hk, hqy]
            exact this
        · have := phase2Row_shape fuel (x + greedyW img vis x y) r hr'
          refine ⟨by omega, this.2⟩
    · exact absurd hr (List.not_mem_nil r)

/-- Every unvisited, non-background pixel of row `y` at or after the scan
position is covered by some rectangle the phase-2 row scan emits. -/
theorem phase2Row_covers {img : Img} {vis : ℕ → ℕ → Bool} {y : ℕ} :
    ∀ (fuel x : ℕ), img.w - x ≤ fuel →
      ∀ u, x ≤ u → u < img.w → vis u y = false →
        isBackground (img.pix u y) = false →
        covered (phase2Row img vis y x fuel) (u, y)
  | 0, x => by intro hfuel u h1 h2 _ _; omega
  | fuel + 1, x => by
    intro hfuel u hxu huw hvis hbg
    unfold phase2Row
    have hxw : x < img.w := by omega
    rw [if_pos hxw]
    split
    · rename_i hskip
      have hux : u ≠ x := by
        intro h
        subst h
        rw [hvis, hbg] at hskip
        simp at hskip
      exact phase2Row_covers fuel (x + 1) (by omega) u (by omega) huw hvis hbg
    · rename_i hskip
      rw [Bool.not_eq_true, Bool.or_eq_false_iff] at hskip
      by_cases hu : u < x + greedyW img vis x y
      · exact ⟨⟨x, y, greedyW img vis x y, 1, img.pix x y⟩, List.mem_cons_self _ _,
          hxu, hu, le_refl _, Nat.lt_succ_self y⟩
      · have hw := greedyW_pos img vis x y
        obtain ⟨r, hr, hcov⟩ := phase2Row_covers fuel (x + greedyW img vis x y)
          (by omega) u (by omega) huw hvis hbg
        exact ⟨r, List.mem_cons_of_mem _ hr, hcov⟩

theorem oldInitialRects_eq (img : Img) :
    oldInitialRects img = (phase1State img).rects ++
      (List.range img.h).flatMap
        (fun y => phase2Row img (phase1State img).visited y 0 img.w) := rfl

theorem oldInitialRects_ok (img : Img) : ∀ r ∈ oldInitialRects img, RectOK img r := by
  intro r hr
  rw [oldInitialRects_eq] at hr
  rcases List.mem_append.1 hr with h | h
  · exact (phase1State_inv img).2.2 r h
  · simp only [List.mem_flatMap, List.mem_range] at h
    obtain ⟨y, hy, hmem⟩ := h
    obtain ⟨_, hry, hrh, hrw, hrb, hbg, hcol⟩ := phase2Row_shape img.w 0 r hmem
    exact ⟨hrw, by omega, hrb, by omega, hbg, fun p hp => (hcol p hp).2⟩

theorem oldInitialRects_covered (img : Img) (p : ℕ × ℕ) :
    covered (oldInitialRects img) p ↔
      p.1 < img.w ∧ p.2 < img.h ∧ isBackground (img.pix p.1 p.2) = false := by
  constructor
  · rintro ⟨r, hr, hcov⟩
    obtain ⟨hw0, hh0, hbw, hbh, hnbg, hcol⟩ := oldInitialRects_ok img r hr
    have hc := hcov
    unfold RectInfo.covers at hc
    refine ⟨by omega, by omega, ?_⟩
    rw [hcol p hcov]
    exact hnbg
  · rintro ⟨hx, hy, hbg⟩
    obtain ⟨h1, _, _⟩ := phase1State_inv img
    rcases hv : (phase1State img).visited p.1 p.2 with _ | _
    · obtain ⟨r, hr, hcov⟩ := phase2Row_covers img.w 0 (by omega) p.1 (Nat.zero_le _)
        hx hv hbg
      refine ⟨r, ?_, hcov⟩
      rw [oldInitialRects_eq]
      refine List.mem_append.2 (Or.inr ?_)
      simp only [List.mem_flatMap, List.mem_range]
      exact ⟨p.2, hy, hr⟩
    · obtain ⟨r, hr, hcov⟩ := (h1 p).1 hv
      exact ⟨r, List.mem_append.2 (Or.inl hr), hcov⟩

/-! ### The merge phases preserve the per-pixel color map -/

theorem coveredWith_perm {rs rs' : List RectInfo} (h : rs.Perm rs') (p : ℕ × ℕ)
    (c : Color) : coveredWith rs p c ↔ coveredWith rs' p c := by
  unfold coveredWith
  constructor
  · rintro ⟨r, hr, h2⟩; exact ⟨r, h.mem_iff.1 hr, h2⟩
  · rintro ⟨r, hr, h2⟩; exact ⟨r, h.mem_iff.2 hr, h2⟩

theorem coveredWith_cons {r : RectInfo} {rs : List RectInfo} {p : ℕ × ℕ} {c : Color} :
    coveredWith (r :: rs) p c ↔ (r.covers p ∧ r.color = c) ∨ coveredWith rs p c := by
  unfold coveredWith
  constructor
  · rintro ⟨r', hr', h2⟩
    rcases List.mem_cons.1 hr' with rfl | hmem
    · exact Or.inl h2
    · exact Or.inr ⟨r', hmem, h2⟩
  · rintro (⟨h1, h2⟩ | ⟨r', hr', h2⟩)
    · exact ⟨r, List.mem_cons_self _ _, h1, h2⟩
    · exact ⟨r', List.mem_cons_of_mem _ hr', h2⟩

/-- Exact right-neighbor merging tiles the union of the two pixel sets. -/
theorem covers_hMerge {curr next : RectInfo} (hy : curr.y = next.y)
    (hh : curr.height = next.height) (hx : curr.x + curr.width = next.x) (p : ℕ × ℕ) :
    ({ curr with width := curr.width + next.width } : RectInfo).covers p ↔
      curr.covers p ∨ next.covers p := by
  simp only [RectInfo.covers]
  omega

/-- Exact bottom-neighbor merging tiles the union of the two pixel sets. -/
theorem covers_vMerge {curr next : RectInfo} (hx : curr.x = next.x)
    (hw : curr.width = next.width) (hy : curr.y + curr.height = next.y) (p : ℕ × ℕ) :
    ({ curr with height := curr.height + next.height } : RectInfo).covers p ↔
      curr.covers p ∨ next.covers p := by
  simp only [RectInfo.covers]
  omega

theorem coveredWith_mergeHRun :
    ∀ (l : List RectInfo) (curr : RectInfo) (p : ℕ × ℕ) (c : Color),
      coveredWith (mergeHRun curr l) p c ↔ coveredWith (curr :: l) p c
  | [], _, _, _ => Iff.rfl
  | next :: rest, curr, p, c => by
    unfold mergeHRun
    split
    · rename_i hcond
      obtain ⟨h1, h2, h3, h4⟩ := hcond
      rw [coveredWith_mergeHRun rest _ p c]
      simp only [coveredWith_cons, covers_hMerge h1 h2 h3]
      rw [h4]
      tauto
    · rename_i hcond
      simp only [coveredWith_cons, coveredWith_mergeHRun rest next p c]

theorem coveredWith_mergeVRun :
    ∀ (l : List RectInfo) (curr : RectInfo) (p : ℕ × ℕ) (c : Color),
      coveredWith (mergeVRun curr l) p c ↔ coveredWith (curr :: l) p c
  | [], _, _, _ => Iff.rfl
  | next :: rest, curr, p, c => by
    unfold mergeVRun
    split
    · rename_i hcond
      obtain ⟨h1, h2, h3, h4⟩ := hcond
      rw [coveredWith_mergeVRun rest _ p c]
      simp only [coveredWith_cons, covers_vMerge h1 h2 h3]
      rw [h4]
      tauto
    · rename_i hcond
      simp only [coveredWith_cons, coveredWith_mergeVRun rest next p c]

theorem coveredWith_mergeH (rs : List RectInfo) (p : ℕ × ℕ) (c : Color) :
    coveredWith (mergeH rs) p c ↔ coveredWith rs p c := by
  cases rs with
  | nil => exact Iff.rfl
  | cons r rest => exact coveredWith_mergeHRun rest r p c

theorem coveredWith_mergeV (rs : List RectInfo) (p : ℕ × ℕ) (c : Color) :
    coveredWith (mergeV rs) p c ↔ coveredWith rs p c := by
  cases rs with
  | nil => exact Iff.rfl
  | cons r rest => exact coveredWith_mergeVRun rest r p c

theorem coveredWith_sortYX (rs : List RectInfo) (p : ℕ × ℕ) (c : Color) :
    coveredWith (sortYX rs) p c ↔ coveredWith rs p c :=
  coveredWith_perm (List.mergeSort_perm rs _) p c

theorem coveredWith_sortXY (rs : List RectInfo) (p : ℕ × ℕ) (c : Color) :
    coveredWith (sortXY rs) p c ↔ coveredWith rs p c :=
  coveredWith_perm (List.mergeSort_perm rs _) p c

/-- Per-pixel color map of the four-phase decomposition. -/
theorem oldOptimizeRectangles_coveredWith (img : Img) (p : ℕ × ℕ) (c : Color) :
    coveredWith (oldOptimizeRectangles img) p c ↔
      p.1 < img.w ∧ p.2 < img.h ∧ isBackground (img.pix p.1 p.2) = false ∧
        c = img.pix p.1 p.2 := by
  have hchar : coveredWith (oldInitialRects img) p c ↔
      p.1 < img.w ∧ p.2 < img.h ∧ isBackground (img.pix p.1 p.2) = false ∧
        c = img.pix p.1 p.2 := by
    rw [coveredWith_char (oldInitialRects_ok img), oldInitialRects_covered]
    tauto
  unfold oldOptimizeRectangles
  split
  · exact hchar
  · rw [coveredWith_mergeV, coveredWith_sortXY, coveredWith_mergeH, coveredWith_sortYX]
    exact hchar

/-! ## Claim theorems for the decomposition engine -/

/-- C1: for every raster image, the rectangles returned by the greedy-meshing
`optimizeRectangles` are pairwise disjoint, every pixel inside a returned
rectangle is exactly color-equal (including alpha) to the rectangle's
recorded color, and the union of the returned rectangles is exactly the set
of in-bounds pixels that are not background (alpha = 0 or
RGB = (255,255,255)); hence re-painting the rectangles onto a blank canvas
reproduces the original image on every non-background pixel. -/
theorem optimizeRectangles_exact_cover (img : Img) :
    PairwiseDisjoint (optimizeRectangles img) ∧
    (∀ r ∈ optimizeRectangles img, ∀ p, r.covers p → img.pix p.1 p.2 = r.color) ∧
    (∀ p : ℕ × ℕ, covered (optimizeRectangles img) p ↔
      p.1 < img.w ∧ p.2 < img.h ∧ isBackground (img.pix p.1 p.2) = false) := by
  obtain ⟨_, h2, h3⟩ := optimizeRectangles_inv img
  exact ⟨h2, fun r hr => (h3 r hr).2.2.2.2.2, optimizeRectangles_covered img⟩

/-- C2: for every raster image, the single-pass greedy `optimizeRectangles`
and the four-phase `oldOptimizeRectangles` induce the same per-pixel color
map — a pixel is covered with a given color by some rectangle of one output
iff it is covered with the same color by some rectangle of the other. -/
theorem oldOptimizeRectangles_equiv_greedy (img : Img) (p : ℕ × ℕ) (c : Color) :
    coveredWith (oldOptimizeRectangles img) p c ↔
      coveredWith (optimizeRectangles img) p c := by
  rw [oldOptimizeRectangles_coveredWith, optimizeRectangles_coveredWith]

/-! ## The SVG path recorder (`svgPathRecorder` in `image_format.go`) -/

/-- One entry of the recorder's `currentCommands` slice. Each Go `append`
pushes one command string; `DrawCircle` and `DrawRectangle` push their whole
two-arc / four-point expansion as a single string, modelled here as a single
structured command. `float64` coordinates are modelled as rationals. -/
inductive PathCmd
  | moveTo (x y : ℚ)
  | lineTo (x y : ℚ)
  | quadTo (cx cy x y : ℚ)
  | close
  | circle (cx cy radius : ℚ)
  | rect (x y w h : ℚ)
deriving DecidableEq, Repr

/-- An attribute serialized by `generateSVGPathElement` (a hex color string
`#rrggbb` is represented by its `(r, g, b)` byte triple, `fill="none"` by
`fillNone`). -/
inductive SvgAttr
  | fillRule (rule : String)
  | fill (rgb : ℕ × ℕ × ℕ)
  | stroke (rgb : ℕ × ℕ × ℕ)
  | strokeWidth (w : ℚ)
  | strokeLinecap (cap : String)
  | strokeDasharray (ds : List ℚ)
  | fillNone
deriving DecidableEq, Repr

/-- One emitted `<path d="…" …/>` element: its command data and serialized
attributes, in emission order. -/
structure PathElement where
  pathData : List PathCmd
  attrs : List SvgAttr
deriving DecidableEq, Repr

/-- The state of `svgPathRecorder`. -/
structure SvgPathRecorder where
  pathElements : List PathElement
  currentCommands : List PathCmd
  currentX : ℚ
  currentY : ℚ
  strokeDash : List ℚ
  strokeWidth : ℚ
  strokeLineCap : String
  fillRule : String
  currentColor : Option Color
  hasGradient : Bool
deriving DecidableEq, Repr

/-- `NewSVGPathRecorder(hasGradient)`: all fields zero-valued. -/
def NewSVGPathRecorder (hasGradient : Bool) : SvgPathRecorder :=
  ⟨[], [], 0, 0, [], 0, "", "", none, hasGradient⟩

/-- `colorToHex`: a `nil` color yields the empty string (modelled `none`),
otherwise the `#rrggbb` triple of the RGBA conversion. -/
def colorToHex : Option Color → Option (ℕ × ℕ × ℕ)
  | none => none
  | some c => some (c.r, c.g, c.b)

/-- `generateSVGPathElement(pathData, operation, colorStr)`: the attribute
list assembled by the Go branches for `"fill"` and `"stroke"` operations
(`colorStr = none` models the empty color string). -/
def generateSVGPathElement (r : SvgPathRecorder) (pathData : List PathCmd)
    (operation : String) (colorStr : Option (ℕ × ℕ × ℕ)) : PathElement :=
  let attrs : List SvgAttr :=
    if operation = "fill" then
      (if r.fillRule ≠ "" then [SvgAttr.fillRule r.fillRule] else []) ++
      (match colorStr with
       | some rgb => [SvgAttr.fill rgb]
       | none => [])
    else if operation = "stroke" then
      (match colorStr with
       | some rgb => [SvgAttr.stroke rgb]
       | none => []) ++
      (if r.strokeWidth > 0 then [SvgAttr.strokeWidth r.strokeWidth] else []) ++
      (if r.strokeLineCap ≠ "" then [SvgAttr.strokeLinecap r.strokeLineCap] else []) ++
      (if r.strokeDash ≠ [] then [SvgAttr.strokeDasharray r.strokeDash] else []) ++
      [SvgAttr.fillNone]
    else []
  ⟨pathData, attrs⟩

def SvgPathRecorder.MoveTo (r : SvgPathRecorder) (x y : ℚ) : SvgPathRecorder :=
  { r with currentCommands := r.currentCommands ++ [PathCmd.moveTo x y]
           currentX := x, currentY := y }

def SvgPathRecorder.LineTo (r : SvgPathRecorder) (x y : ℚ) : SvgPathRecorder :=
  { r with currentCommands := r.currentCommands ++ [PathCmd.lineTo x y]
           currentX := x, currentY := y }

def SvgPathRecorder.QuadraticTo (r : SvgPathRecorder) (cx cy x y : ℚ) : SvgPathRecorder :=
  { r with currentCommands := r.currentCommands ++ [PathCmd.quadTo cx cy x y]
           currentX := x, currentY := y }

def SvgPathRecorder.ClosePath (r : SvgPathRecorder) : SvgPathRecorder :=
  { r with currentCommands := r.currentCommands ++ [PathCmd.close] }

def SvgPathRecorder.DrawCircle (r : SvgPathRecorder) (cx cy radius : ℚ) : SvgPathRecorder :=
  { r with currentCommands := r.currentCommands ++ [PathCmd.circle cx cy radius]
           currentX := cx + radius, currentY := cy }

def SvgPathRecorder.DrawRectangle (r : SvgPathRecorder) (x y w h : ℚ) : SvgPathRecorder :=
  { r with currentCommands := r.currentCommands ++ [PathCmd.rect x y w h]
           currentX := x, currentY := y + h }

def SvgPathRecorder.SetColor (r : SvgPathRecorder) (c : Color) : SvgPathRecorder :=
  { r with currentColor := some c }

/-- `Fill()`: when path commands are pending, emit them as one `"fill"`
element (with the hex fill color unless gradients are enabled) and clear the
command buffer; afterwards reset the stroke attributes. -/
def SvgPathRecorder.Fill (r : SvgPathRecorder) : SvgPathRecorder :=
  let r' :=
    if r.currentCommands ≠ [] then
      { r with
        pathElements := r.pathElements ++
          [generateSVGPathElement r r.currentCommands "fill"
            (if !r.hasGradient then colorToHex r.currentColor else none)]
        currentCommands := [] }
    else r
  { r' with strokeDash := [], strokeWidth := 0, strokeLineCap := "" }

/-- `Stroke()`: when path commands are pending, emit them as one `"stroke"`
element; afterwards reset the stroke attributes. -/
def SvgPathRecorder.Stroke (r : SvgPathRecorder) : SvgPathRecorder :=
  let r' :=
    if r.currentCommands ≠ [] then
      { r with
        pathElements := r.pathElements ++
          [generateSVGPathElement r r.currentCommands "stroke"
            (colorToHex r.currentColor)]
        currentCommands := [] }
    else r
  { r' with strokeDash := [], strokeWidth := 0, strokeLineCap := "" }

def SvgPathRecorder.SetDash (r : SvgPathRecorder) (dashes : List ℚ) : SvgPathRecorder :=
  { r with strokeDash := dashes }

def SvgPathRecorder.SetLineWidth (r : SvgPathRecorder) (lineWidth : ℚ) : SvgPathRecorder :=
  { r with strokeWidth := lineWidth }

/-- `SetLineCap` over the `gg.LineCap` enumeration (0 = butt, 1 = round,
2 = square, anything else = butt). -/
def SvgPathRecorder.SetLineCap (r : SvgPathRecorder) (lineCap : ℕ) : SvgPathRecorder :=
  { r with strokeLineCap :=
      match lineCap with
      | 0 => "butt"
      | 1 => "round"
      | 2 => "square"
      | _ => "butt" }

def SvgPathRecorder.SetLineCapSquare (r : SvgPathRecorder) : SvgPathRecorder :=
  { r with strokeLineCap := "square" }

def SvgPathRecorder.SetFillRuleEvenOdd (r : SvgPathRecorder) : SvgPathRecorder :=
  { r with fillRule := "evenodd" }

def SvgPathRecorder.SetFillRuleWinding (r : SvgPathRecorder) : SvgPathRecorder :=
  { r with fillRule := "nonzero" }

def SvgPathRecorder.NewSubPath (r : SvgPathRecorder) : SvgPathRecorder := r

/-- `toSVGPath`: finalize any pending path with `Fill()`, then return the
collected elements (the Go function joins them into one string, which is
empty when the list is empty). -/
def SvgPathRecorder.toSVGPath (r : SvgPathRecorder) : List PathElement :=
  r.Fill.pathElements

/-- A concrete recorder run: set the even-odd fill rule, build a rectangle
path, and commit it with `Fill`. -/
def fillRuleProbe : SvgPathRecorder :=
  (((NewSVGPathRecorder false).SetFillRuleEvenOdd).DrawRectangle 0 0 1 1).Fill

/-- C3 counterexample: `Fill` is claimed to reset the fill rule to its
default (empty) value, but after committing a shape under the even-odd rule
the recorder still holds `fillRule = "evenodd"`, and a second shape committed
through the same recorder inherits it: its emitted element carries
`fill-rule="evenodd"` although no fill rule was set between the commits. -/
theorem fill_does_not_reset_fillRule :
    fillRuleProbe.fillRule = "evenodd" ∧ ¬fillRuleProbe.fillRule = "" ∧
    ((fillRuleProbe.DrawRectangle 2 0 1 1).Fill).pathElements =
      [⟨[PathCmd.rect 0 0 1 1], [SvgAttr.fillRule "evenodd"]⟩,
       ⟨[PathCmd.rect 2 0 1 1], [SvgAttr.fillRule "evenodd"]⟩] := by
  refine ⟨rfl, by decide, ?_⟩
  decide

/-- C3 (amended): `Fill` and `Stroke` are commit points that reset the stroke
attributes (dash pattern, line width, line cap) to their zero defaults, but
they do not reset the fill rule, which persists across commits. -/
theorem fill_stroke_reset_stroke_attrs (r : SvgPathRecorder) :
    r.Fill.strokeDash = [] ∧ r.Fill.strokeWidth = 0 ∧ r.Fill.strokeLineCap = "" ∧
    r.Fill.fillRule = r.fillRule ∧
    r.Stroke.strokeDash = [] ∧ r.Stroke.strokeWidth = 0 ∧ r.Stroke.strokeLineCap = "" ∧
    r.Stroke.fillRule = r.fillRule := by
  unfold SvgPathRecorder.Fill SvgPathRecorder.Stroke
  refine ⟨rfl, rfl, rfl, ?_, rfl, rfl, rfl, ?_⟩ <;> (dsimp only; split <;> rfl)

/-- C10: `toSVGPath` never discards pending path commands: when the recorder
holds commands that were never committed by `Fill` or `Stroke`, its output is
the previously committed elements followed by exactly one additional element
carrying those pending commands, emitted as a `"fill"` element. -/
theorem toSVGPath_commits_pending (r : SvgPathRecorder)
    (h : r.currentCommands ≠ []) :
    r.toSVGPath = r.pathElements ++
      [generateSVGPathElement r r.currentCommands "fill"
        (if !r.hasGradient then colorToHex r.currentColor else none)] ∧
    r.toSVGPath ≠ [] := by
  unfold SvgPathRecorder.toSVGPath SvgPathRecorder.Fill
  rw [if_pos h]
  exact ⟨rfl, by simp⟩

/-- C10 witness: a shape that builds one rectangle path and never calls
`Fill` still produces one filled path element in the finalized output. -/
theorem toSVGPath_commits_pending_witness :
    ((NewSVGPathRecorder false).DrawRectangle 0 0 10 10).currentCommands ≠ [] ∧
    ((NewSVGPathRecorder false).DrawRectangle 0 0 10 10).toSVGPath =
      [⟨[PathCmd.rect 0 0 10 10], []⟩] := by
  have h := toSVGPath_commits_pending ((NewSVGPathRecorder false).DrawRectangle 0 0 10 10)
    (by decide)
  exact ⟨by decide, by rw [h.1]; decide⟩

/-! ## Canvas size formulas (C4) -/

/-- The `[4]int` border-width array of `outputImageOptions`; the
`WithBorderWidth` option lays it out as index 0 = top, 1 = right,
2 = bottom, 3 = left. -/
structure BorderWidths where
  top : ℕ
  right : ℕ
  bottom : ℕ
  left : ℕ
deriving DecidableEq, Repr

/-- The `WithBorderWidth(widths…)` option: no values = the default padding on
all four sides, one value = all sides, two or three values = top/bottom from
the first and left/right from the second, four or more = top, right, bottom,
left in order. `_defaultPadding` is declared outside the provided sources and
enters as a parameter. -/
def withBorderWidth (defaultPadding : ℕ) (widths : List ℕ) : BorderWidths :=
  match widths with
  | [] => ⟨defaultPadding, defaultPadding, defaultPadding, defaultPadding⟩
  | [a] => ⟨a, a, a, a⟩
  | [a, b] => ⟨a, b, a, b⟩
  | [a, b, _] => ⟨a, b, a, b⟩
  | a :: b :: c :: d :: _ => ⟨a, b, c, d⟩

/-- Canvas size declared by `svgEncoder.EncodeMatrix`:
`width = cols*blockWidth + borderWidths[0] + borderWidths[1]` and
`height = rows*blockWidth + borderWidths[2] + borderWidths[3]`. -/
def svgEncoderCanvas (cols rows blockWidth : ℕ) (bw : BorderWidths) : ℕ × ℕ :=
  (cols * blockWidth + bw.top + bw.right, rows * blockWidth + bw.bottom + bw.left)

/-- Canvas size declared by `SvgoEncoder.EncodeMatrix`:
`width = cols*blockWidth + borderWidths[3] + borderWidths[1]` and
`height = rows*blockWidth + borderWidths[0] + borderWidths[2]`. -/
def svgoEncoderCanvas (cols rows blockWidth : ℕ) (bw : BorderWidths) : ℕ × ℕ :=
  (cols * blockWidth + bw.left + bw.right, rows * blockWidth + bw.top + bw.bottom)

/-- Module pixel origin used by both matrix encoders:
`blockX = x*blockWidth + borderWidths[3]`,
`blockY = y*blockWidth + borderWidths[0]`. -/
def blockOrigin (x y blockWidth : ℕ) (bw : BorderWidths) : ℕ × ℕ :=
  (x * blockWidth + bw.left, y * blockWidth + bw.top)

/-- C4: the claimed canvas formulas
`width = cols·blockWidth + left + right`, `height = rows·blockWidth + top +
bottom` (with the `WithBorderWidth` layout `[top, right, bottom, left]`) hold
for `SvgoEncoder.EncodeMatrix` for every input, but `svgEncoder.EncodeMatrix`
sums the wrong indices (top+right for the width, bottom+left for the
height). At borders top=10, right=0, bottom=0, left=30, one module of block
width 5: the claimed canvas is 35×15, `svgEncoder` declares 15×35, and the
module it places at x = 30 (using the left border, per `blockOrigin`) ends at
x = 35, outside its own declared width of 15. -/
theorem svgEncoderCanvas_wrong_borders :
    (∀ cols rows blockWidth bw, svgoEncoderCanvas cols rows blockWidth bw =
      (cols * blockWidth + bw.left + bw.right, rows * blockWidth + bw.top + bw.bottom)) ∧
    withBorderWidth 20 [10, 0, 0, 30] = ⟨10, 0, 0, 30⟩ ∧
    svgoEncoderCanvas 1 1 5 ⟨10, 0, 0, 30⟩ = (35, 15) ∧
    svgEncoderCanvas 1 1 5 ⟨10, 0, 0, 30⟩ = (15, 35) ∧
    (svgEncoderCanvas 1 1 5 ⟨10, 0, 0, 30⟩).1 ≠ 35 ∧
    blockOrigin 0 0 5 ⟨10, 0, 0, 30⟩ = (30, 10) ∧
    (svgEncoderCanvas 1 1 5 ⟨10, 0, 0, 30⟩).1 <
      (blockOrigin 0 0 5 ⟨10, 0, 0, 30⟩).1 + 5 :=
  ⟨fun _ _ _ _ => rfl, by decide, by decide, by decide, by decide, by decide, by decide⟩

/-! ## Gradient projector (C5) -/

/-- The four corners of the canvas rectangle `[0,W] × [0,H]`, in the order
the gradient writers list them. -/
def gradientCorners (W H : ℚ) : List (ℚ × ℚ) :=
  [(0, 0), (0, H), (W, 0), (W, H)]

/-- Minimum projection `p[0]*dx + p[1]*dy` over the four corners (the Go
code folds from `+Inf`, which on a nonempty list is the minimum). -/
def minProj (dx dy W H : ℚ) : ℚ :=
  min (min (0 * dx + 0 * dy) (0 * dx + H * dy)) (min (W * dx + 0 * dy) (W * dx + H * dy))

/-- Maximum projection over the four corners (fold from `-Inf`). -/
def maxProj (dx dy W H : ℚ) : ℚ :=
  max (max (0 * dx + 0 * dy) (0 * dx + H * dy)) (max (W * dx + 0 * dy) (W * dx + H * dy))

/-- Gradient line endpoints computed by `writeSVGGradient` for direction
`(dx, dy) = (cos angleRad, −sin angleRad)` on a `W×H` canvas: through the
canvas center, extended by `±(maxProj−minProj)/2` along the direction
(`float64` arithmetic modelled exactly over ℚ). -/
def gradientEndpoints (dx dy W H : ℚ) : (ℚ × ℚ) × (ℚ × ℚ) :=
  let centerX := (0 + W) / 2
  let centerY := (0 + H) / 2
  let halfRange := (maxProj dx dy W H - minProj dx dy W H) / 2
  ((centerX - halfRange * dx, centerY - halfRange * dy),
   (centerX + halfRange * dx, centerY + halfRange * dy))

/-- Go `int(q)` conversion of a float: truncation toward zero. -/
def goInt (q : ℚ) : ℤ := if 0 ≤ q then ⌊q⌋ else -⌊-q⌋

/-- The `clamp` helper of `writeSvgoGradient`: clamp to `[0, 255]`, because
the svgo `LinearGradient` API takes `uint8` coordinates. -/
def clampByte (v : ℤ) : ℤ :=
  if v < 0 then 0 else if v > 255 then 255 else v

/-- Gradient line endpoints passed to `canvas.LinearGradient` by
`SvgoEncoder.writeSvgoGradient`: the same projection arithmetic, but each
coordinate is truncated with `int(…)` and clamped to `[0, 255]`. -/
def svgoGradientEndpoints (dx dy W H : ℚ) : (ℤ × ℤ) × (ℤ × ℤ) :=
  ((clampByte (goInt (gradientEndpoints dx dy W H).1.1),
    clampByte (goInt (gradientEndpoints dx dy W H).1.2)),
   (clampByte (goInt (gradientEndpoints dx dy W H).2.1),
    clampByte (goInt (gradientEndpoints dx dy W H).2.2)))

/-- C5 counterexample: for angle 0 — direction `(cos 0, −sin 0) = (1, 0)` —
on a 300×100 canvas, the float writer `writeSVGGradient` produces the claimed
endpoints `(centerX − W/2, centerY) = (0, 50)` and
`(centerX + W/2, centerY) = (300, 50)`, but `writeSvgoGradient` clamps every
coordinate to the `uint8` range and passes `(0, 50)` and `(255, 50)`: the
claimed endpoint `x = 300` is not produced by that writer, so the claim does
not hold for both writers regardless of canvas size. -/
theorem svgoGradient_clamps_endpoints :
    Real.cos 0 = 1 ∧ -Real.sin 0 = 0 ∧
    gradientEndpoints 1 0 300 100 = ((0, 50), (300, 50)) ∧
    svgoGradientEndpoints 1 0 300 100 = ((0, 50), (255, 50)) ∧
    (255 : ℤ) ≠ 300 := by
  refine ⟨Real.cos_zero, by rw [Real.sin_zero]; ring, ?_, ?_, by decide⟩
  · norm_num [gradientEndpoints, minProj, maxProj, min_def, max_def]
  · norm_num [svgoGradientEndpoints, gradientEndpoints, minProj, maxProj,
      min_def, max_def, goInt, clampByte]

/-- C5 (amended): the projection algorithm of the float gradient writer
`writeSVGGradient` satisfies the claim on every canvas: for angle 0 the
direction is `(cos 0, −sin 0) = (1, 0)` and the endpoints are
`(centerX − W/2, centerY)` and `(centerX + W/2, centerY)`; for angle 90 the
direction is `(cos 90°, −sin 90°) = (0, −1)` and the endpoints are the two
claimed points `(centerX, centerY ± H/2)`, with the `+` endpoint first.
`writeSvgoGradient` computes the same line but truncates the coordinates to
integers and clamps them to `[0, 255]`, so it agrees only where that leaves
the values unchanged. -/
theorem gradientEndpoints_axis_aligned (W H : ℚ) (hW : 0 ≤ W) (hH : 0 ≤ H) :
    Real.cos 0 = 1 ∧ -Real.sin 0 = 0 ∧
    Real.cos (90 * Real.pi / 180) = 0 ∧ -Real.sin (90 * Real.pi / 180) = -1 ∧
    gradientEndpoints 1 0 W H = ((W / 2 - W / 2, H / 2), (W / 2 + W / 2, H / 2)) ∧
    gradientEndpoints 0 (-1) W H = ((W / 2, H / 2 + H / 2), (W / 2, H / 2 - H / 2)) := by
  have h90 : (90 : ℝ) * Real.pi / 180 = Real.pi / 2 := by ring
  have hmin0 : minProj 1 0 W H = 0 := by
    unfold minProj
    norm_num
    exact hW
  have hmax0 : maxProj 1 0 W H = W := by
    unfold maxProj
    norm_num
    exact hW
  have hmin90 : minProj 0 (-1) W H = -H := by
    unfold minProj
    norm_num
    exact hH
  have hmax90 : maxProj 0 (-1) W H = 0 := by
    unfold maxProj
    norm_num
    exact hH
  refine ⟨Real.cos_zero, by rw [Real.sin_zero]; ring,
    by rw [h90, Real.cos_pi_div_two],
    by rw [h90, Real.sin_pi_div_two],
    ?_, ?_⟩
  · unfold gradientEndpoints
    dsimp only
    rw [hmin0, hmax0]
    simp only [Prod.mk.injEq]
    exact ⟨⟨by ring, by ring⟩, by ring, by ring⟩
  · unfold gradientEndpoints
    dsimp only
    rw [hmin90, hmax90]
    simp only [Prod.mk.injEq]
    exact ⟨⟨by ring, by ring⟩, by ring, by ring⟩

/-- C5 amended-claim witness at the concrete canvas 4×2. -/
theorem gradientEndpoints_axis_aligned_witness :
    (0 : ℚ) ≤ 4 ∧ (0 : ℚ) ≤ 2 ∧
      (gradientEndpoints 1 0 4 2 = ((4 / 2 - 4 / 2, 2 / 2), (4 / 2 + 4 / 2, 2 / 2)) ∧
       gradientEndpoints 0 (-1) 4 2 = ((4 / 2, 2 / 2 + 2 / 2), (4 / 2, 2 / 2 - 2 / 2))) :=
  ⟨by norm_num, by norm_num,
    (gradientEndpoints_axis_aligned 4 2 (by norm_num) (by norm_num)).2.2.2.2⟩

/-! ## Drawing events and the built-in circle shape (C8) -/

/-- One call a shape makes on its `GraphicsContext`, in order. -/
inductive GfxEvent
  | drawCircle (cx cy radius : ℚ)
  | drawRect (x y w h : ℚ)
  | setColor (c : Color)
  | fill
  | stroke
deriving DecidableEq, Repr

/-- The `DrawContext` fields a built-in shape reads: `float64` upper-left
origin, `int` cell edge, fill color. -/
structure DrawCtx where
  x : ℚ
  y : ℚ
  w : ℕ
  h : ℕ
  color : Color
deriving DecidableEq, Repr

/-- `circle.Draw` of `image_qr_shape.go`: `radius := c.w / 2` (integer
division); `r2 := c.h / 2`; `if r2 <= radius { radius = r2 }`; one circle
centered at `(c.x + w/2, c.y + h/2)` in float arithmetic with the integer
radius; then `SetColor(c.color)` and `Fill()`. -/
def circleDraw (c : DrawCtx) : List GfxEvent :=
  [GfxEvent.drawCircle (c.x + (c.w : ℚ) / 2) (c.y + (c.h : ℚ) / 2)
     (((if c.h / 2 ≤ c.w / 2 then c.h / 2 else c.w / 2 : ℕ) : ℚ)),
   GfxEvent.setColor c.color,
   GfxEvent.fill]

/-- `circle.DrawFinder` delegates to `circle.Draw`. -/
def circleDrawFinder (c : DrawCtx) : List GfxEvent := circleDraw c

/-- C8 counterexample: on a 5×5 cell at origin (0, 0) the emitted circle has
radius 2 — the integer division `5 / 2` — not the claimed half of the
smaller edge, `5/2`. -/
theorem circleDraw_radius_truncates :
    circleDraw ⟨0, 0, 5, 5, ⟨0, 0, 0, 255⟩⟩ =
      [GfxEvent.drawCircle (5 / 2) (5 / 2) 2,
       GfxEvent.setColor ⟨0, 0, 0, 255⟩, GfxEvent.fill] ∧
    (2 : ℚ) ≠ 5 / 2 := by
  constructor
  · norm_num [circleDraw]
  · norm_num

/-- C8 (amended): `circle.Draw` emits exactly one circle command — centered
at `(x + w/2, y + h/2)`, with radius `min w h / 2` computed in integer
division (so the exact half only when the smaller edge is even) — followed
by setting the context color and one fill: exactly these three events. -/
theorem circleDraw_spec (c : DrawCtx) :
    circleDraw c =
      [GfxEvent.drawCircle (c.x + (c.w : ℚ) / 2) (c.y + (c.h : ℚ) / 2)
         ((min c.w c.h / 2 : ℕ) : ℚ),
       GfxEvent.setColor c.color, GfxEvent.fill] ∧
    ((circleDraw c).filter
      (fun e => match e with | GfxEvent.drawCircle _ _ _ => true | _ => false)).length
      = 1 := by
  have hr : (if c.h / 2 ≤ c.w / 2 then c.h / 2 else c.w / 2) = min c.w c.h / 2 := by
    split <;> omega
  constructor
  · unfold circleDraw
    rw [hr]
  · rfl

/-! ## Halftone preprocessor: grayscale and binarization (C9) -/

/-- `color.GrayModel` conversion at the 8-bit level: the 16-bit channel
values returned by `RGBA()` are `v * 0x101 = 257·v`, and Go computes
`y = (19595·r + 38470·g + 7471·b + 1<<15) >> 24`. -/
def grayLum (c : Color) : ℕ :=
  (19595 * (257 * c.r) + 38470 * (257 * c.g) + 7471 * (257 * c.b) + 32768) / 16777216

/-- `imgkit.Gray(src)`: an image with the same bounds whose every pixel is
`color.Gray{uint8(y)}` of the source pixel — as RGBA, `(y, y, y, 255)` with
the stored byte `y` reduced mod 256 by the `uint8` conversion (a no-op for
8-bit sources, see `grayLum_le`). -/
def Gray (img : Img) : Img :=
  ⟨img.w, img.h, fun x y =>
    ⟨grayLum (img.pix x y) % 256, grayLum (img.pix x y) % 256,
     grayLum (img.pix x y) % 256, 255⟩⟩

/-- `color.White` as stored into the gray output image. -/
def whiteC : Color := ⟨255, 255, 255, 255⟩

/-- `color.Black` as stored into the gray output image. -/
def blackC : Color := ⟨0, 0, 0, 255⟩

/-- `imgkit.Binaryzation(src, threshold, useOriginalColors)`. The threshold
parameter is a Go `uint8`, modelled by reducing the argument mod 256 at the
call boundary, so the `threshold < 0 || threshold > 255` guard (which would
substitute 128) can never fire. With `useOriginalColors` the source is
copied unmodified (`draw.Draw(dst, bounds, src, bounds.Min, draw.Src)` into
a fresh RGBA image of the same bounds — the identity at the 8-bit RGBA
level); otherwise every pixel whose gray value strictly exceeds the
threshold becomes `color.White`, all others `color.Black`. -/
def Binaryzation (src : Img) (threshold : ℕ) (useOriginalColors : Bool) : Img :=
  let t0 := threshold % 256
  let t := if t0 > 255 then 128 else t0
  if useOriginalColors then src
  else ⟨src.w, src.h, fun x y => if ((Gray src).pix x y).r > t then whiteC else blackC⟩

/-- Grayscale conversion is the identity on gray pixels: for `v < 256`,
`(19595·257·v + 38470·257·v + 7471·257·v + 2¹⁵) >> 24 = v`. -/
theorem grayLum_gray : ∀ v, v < 256 → ∀ a, grayLum ⟨v, v, v, a⟩ = v := by
  intro v hv a
  simp only [grayLum]
  omega

/-- For an 8-bit source pixel the gray value fits in one byte, so the
`uint8` conversion stores it unchanged. -/
theorem grayLum_le (c : Color) (hr : c.r ≤ 255) (hg : c.g ≤ 255) (hb : c.b ≤ 255) :
    grayLum c ≤ 255 := by
  unfold grayLum
  omega

/-- C9: for every 8-bit source image and threshold `t < 256`, `Binaryzation`
with the preserve-original-colors flag `false` keeps the bounds, makes every
pixel pure black or pure white, and makes a pixel white exactly when its
grayscale value strictly exceeds `t`; a uniform gray image of value `t+1`
becomes all white and one of value `t` all black; with the flag `true` the
output is a pixel-for-pixel unmodified copy of the source. -/
theorem Binaryzation_spec (src : Img) (t : ℕ) (ht : t < 256)
    (h8 : ∀ x y, (src.pix x y).r ≤ 255 ∧ (src.pix x y).g ≤ 255 ∧ (src.pix x y).b ≤ 255) :
    (Binaryzation src t false).w = src.w ∧ (Binaryzation src t false).h = src.h ∧
    (∀ x y, (Binaryzation src t false).pix x y = whiteC ∨
            (Binaryzation src t false).pix x y = blackC) ∧
    (∀ x y, (Binaryzation src t false).pix x y = whiteC ↔ grayLum (src.pix x y) > t) ∧
    (t + 1 ≤ 255 → ∀ x y a, src.pix x y = ⟨t + 1, t + 1, t + 1, a⟩ →
        (Binaryzation src t false).pix x y = whiteC) ∧
    (∀ x y a, src.pix x y = ⟨t, t, t, a⟩ →
        (Binaryzation src t false).pix x y = blackC) ∧
    Binaryzation src t true = src := by
  have hmod : t % 256 = t := Nat.mod_eq_of_lt ht
  have hpix : ∀ x y, (Binaryzation src t false).pix x y =
      if grayLum (src.pix x y) > t then whiteC else blackC := by
    intro x y
    have hle : grayLum (src.pix x y) ≤ 255 :=
      grayLum_le _ (h8 x y).1 (h8 x y).2.1 (h8 x y).2.2
    show (if ((Gray src).pix x y).r > (if t % 256 > 255 then 128 else t % 256)
          then whiteC else blackC) = _
    have hread : ((Gray src).pix x y).r = grayLum (src.pix x y) := by
      show grayLum (src.pix x y) % 256 = grayLum (src.pix x y)
      omega
    rw [hread, hmod, if_neg (show ¬t > 255 by omega)]
  refine ⟨rfl, rfl, ?_, ?_, ?_, ?_, rfl⟩
  · intro x y
    rw [hpix]
    split
    · exact Or.inl rfl
    · exact Or.inr rfl
  · intro x y
    rw [hpix]
    split
    · simpa using by assumption
    · rename_i hgt
      constructor
      · intro hw
        exact absurd hw (by decide)
      · intro h
        exact absurd h hgt
  · intro h1 x y a hsrc
    rw [hpix, hsrc, grayLum_gray (t + 1) (by omega) a, if_pos (by omega)]
  · intro x y a hsrc
    rw [hpix, hsrc, grayLum_gray t (by omega) a, if_neg (by omega)]

/-- C9 witness at threshold 60: a uniform gray-61 image binarizes to white,
a uniform gray-60 image to black. -/
theorem Binaryzation_spec_witness :
    (60 : ℕ) < 256 ∧
    (Binaryzation ⟨1, 1, fun _ _ => ⟨61, 61, 61, 255⟩⟩ 60 false).pix 0 0 = whiteC ∧
    (Binaryzation ⟨1, 1, fun _ _ => ⟨60, 60, 60, 255⟩⟩ 60 false).pix 0 0 = blackC := by
  refine ⟨by norm_num, ?_, ?_⟩
  · exact (Binaryzation_spec ⟨1, 1, fun _ _ => ⟨61, 61, 61, 255⟩⟩ 60 (by norm_num)
      (fun _ _ => by exact ⟨by norm_num, by norm_num, by norm_num⟩)).2.2.2.2.1
      (by norm_num) 0 0 255 rfl
  · exact (Binaryzation_spec ⟨1, 1, fun _ _ => ⟨60, 60, 60, 255⟩⟩ 60 (by norm_num)
      (fun _ _ => by exact ⟨by norm_num, by norm_num, by norm_num⟩)).2.2.2.2.2.1
      0 0 255 rfl

/-! ## The per-module rendering pass (C6, C7) -/

/-- Module type tags of the external matrix that the encoders branch on
(`qrcode.QRType_FINDER`, `qrcode.QRType_DATA`, everything else). -/
inductive QRType
  | finder
  | data
  | other
deriving DecidableEq, Repr

/-- The inputs of one invocation of a matrix encoder's per-module callback:
whether the module is set, its type tag, its matrix coordinates, the
resolved QR color `opts.translateToRGBA(v)`, whether a halftone source and a
gradient are configured, whether the logo-safe-zone test excludes the module
(`logoValid && logoSafeZone && blockOverlapsLogo(…)` for `svgEncoder`, the
inline box test for `SvgoEncoder`), and the preprocessed halftone sample
function `halftoneColor(halftoneImg, bgTransparent, ·, ·)`. `translateToRGBA`
and `halftoneColor` are declared outside the provided sources; they enter
here as already-resolved values. -/
structure ModuleCtx where
  isSet : Bool
  qrType : QRType
  mx : ℕ
  my : ℕ
  qrColor : Color
  hasHalftone : Bool
  hasGradient : Bool
  logoSkip : Bool
  htSample : ℕ → ℕ → Color

/-- The fill a drawn element carries: a gradient reference
(`url(#qrGradient)`) or a hex color triple. -/
inductive FillSpec
  | gradientUrl
  | rgb (t : ℕ × ℕ × ℕ)
deriving DecidableEq, Repr

/-- One element the per-module pass writes: a halftone sub-cell at grid
position `(i, j)` of the module's 3×3 subdivision, or the module's main
block. -/
inductive ModuleEvent
  | subCell (i j : ℕ) (fill : FillSpec)
  | block (fill : FillSpec)
deriving DecidableEq, Repr

/-- The resolved color of halftone sub-cell `(i, j)` in
`svgEncoder.EncodeMatrix`: the QR color for the center sub-cell
`(i, j) = (1, 1)`, otherwise the halftone sample at `(x*3+i, y*3+j)`. -/
def svgSubColor (m : ModuleCtx) (i j : ℕ) : Color :=
  if i = 1 ∧ j = 1 then m.qrColor else m.htSample (m.mx * 3 + i) (m.my * 3 + j)

/-- The 3×3 halftone loop of `svgEncoder.EncodeMatrix` (`i` outer, `j`
inner): sub-cells whose resolved color is fully transparent or pure white
are skipped (`continue`), the others are written as
`<g fill="#rrggbb"><…/></g>`. -/
def svgHalftoneEvents (m : ModuleCtx) : List ModuleEvent :=
  (List.range 3).flatMap fun i =>
    (List.range 3).filterMap fun j =>
      if isBackground (svgSubColor m i j) then none
      else some (ModuleEvent.subCell i j
        (FillSpec.rgb ((svgSubColor m i j).r, (svgSubColor m i j).g, (svgSubColor m i j).b)))

/-- The per-module body of `svgEncoder.EncodeMatrix` (the current production
SVG matrix pass): logo-safe-zone exclusion first; then the halftone 3×3
branch for DATA modules — which comes before the `IsSet` check, so it also
runs for unset modules; then unset modules are skipped; otherwise the
module's block is drawn with the gradient reference or its QR color. -/
def svgEncoderModulePass (m : ModuleCtx) : List ModuleEvent :=
  if m.logoSkip then []
  else if m.hasHalftone ∧ m.qrType = QRType.data then svgHalftoneEvents m
  else if !m.isSet then []
  else [ModuleEvent.block (if m.hasGradient then FillSpec.gradientUrl
    else FillSpec.rgb (m.qrColor.r, m.qrColor.g, m.qrColor.b))]

/-- The 3×3 halftone loop of `SvgoEncoder.EncodeMatrix`: the center sub-cell
is always drawn (with the gradient reference or the QR color); the other
sub-cells are skipped only when the halftone sample is fully transparent
(`a == 0`), and drawn with the sample's hex color otherwise. -/
def svgoHalftoneEvents (m : ModuleCtx) : List ModuleEvent :=
  (List.range 3).flatMap fun i =>
    (List.range 3).filterMap fun j =>
      if i = 1 ∧ j = 1 then
        some (ModuleEvent.subCell i j (if m.hasGradient then FillSpec.gradientUrl
          else FillSpec.rgb (m.qrColor.r, m.qrColor.g, m.qrColor.b)))
      else if (m.htSample (m.mx * 3 + i) (m.my * 3 + j)).a = 0 then none
      else some (ModuleEvent.subCell i j
        (FillSpec.rgb ((m.htSample (m.mx * 3 + i) (m.my * 3 + j)).r,
          (m.htSample (m.mx * 3 + i) (m.my * 3 + j)).g,
          (m.htSample (m.mx * 3 + i) (m.my * 3 + j)).b)))

/-- The per-module body of `SvgoEncoder.EncodeMatrix`: unset modules are
skipped before everything else — in particular before the halftone branch;
then the logo-safe-zone exclusion; then the halftone 3×3 branch for
non-FINDER modules; otherwise the module's block is drawn. -/
def svgoEncoderModulePass (m : ModuleCtx) : List ModuleEvent :=
  if !m.isSet then []
  else if m.logoSkip then []
  else if m.hasHalftone ∧ m.qrType ≠ QRType.finder then svgoHalftoneEvents m
  else [ModuleEvent.block (if m.hasGradient then FillSpec.gradientUrl
    else FillSpec.rgb (m.qrColor.r, m.qrColor.g, m.qrColor.b))]

/-- An unset DATA module with a halftone source, not excluded by a logo,
whose halftone samples are all black. -/
def unsetHalftoneModule : ModuleCtx :=
  ⟨false, QRType.data, 0, 0, ⟨0, 0, 0, 255⟩, true, false, false,
    fun _ _ => ⟨0, 0, 0, 255⟩⟩

/-- C6 counterexample: the claim's exception — an unset DATA module under a
configured halftone source receives the halftone 3×3 sub-cell rendering —
holds in the `svgEncoder.EncodeMatrix` pass but not in the
`SvgoEncoder.EncodeMatrix` pass, which skips unset modules before the
halftone branch: the same module yields the (non-empty) sub-cell rendering in
the former and no output at all in the latter. -/
theorem svgo_skips_unset_halftone_modules :
    svgEncoderModulePass unsetHalftoneModule = svgHalftoneEvents unsetHalftoneModule ∧
    svgHalftoneEvents unsetHalftoneModule ≠ [] ∧
    svgoEncoderModulePass unsetHalftoneModule = [] := by
  refine ⟨rfl, ?_, rfl⟩
  decide

/-- C6 (amended): in the `svgEncoder.EncodeMatrix` per-module pass, a module
whose value is unset produces no drawing output, with exactly one exception:
when a halftone source is configured, DATA-type modules receive the halftone
3×3 sub-cell rendering even when unset. In the `SvgoEncoder.EncodeMatrix`
pass there is no exception: unset modules never produce output. -/
theorem unset_module_rendering (m : ModuleCtx) (hm : m.isSet = false) :
    (m.hasHalftone = false ∨ m.qrType ≠ QRType.data → svgEncoderModulePass m = []) ∧
    (m.logoSkip = false → m.hasHalftone = true → m.qrType = QRType.data →
      svgEncoderModulePass m = svgHalftoneEvents m) ∧
    svgoEncoderModulePass m = [] := by
  refine ⟨?_, ?_, ?_⟩
  · intro h
    unfold svgEncoderModulePass
    split
    · rfl
    split
    · rename_i hcond
      rcases h with h | h
      · rw [h] at hcond
        exact absurd hcond.1 (by decide)
      · exact absurd hcond.2 h
    split
    · rfl
    · rename_i hset
      rw [hm] at hset
      simp at hset
  · intro h1 h2 h3
    unfold svgEncoderModulePass
    rw [if_neg (by rw [h1]; exact Bool.false_ne_true), if_pos ⟨h2, h3⟩]
  · unfold svgoEncoderModulePass
    rw [if_pos (by rw [hm]; rfl)]

/-- C6 amended-claim witness at the concrete unset halftone DATA module. -/
theorem unset_module_rendering_witness :
    unsetHalftoneModule.isSet = false ∧
    (svgEncoderModulePass unsetHalftoneModule = svgHalftoneEvents unsetHalftoneModule ∧
     svgoEncoderModulePass unsetHalftoneModule = []) := by
  have h := unset_module_rendering unsetHalftoneModule rfl
  exact ⟨rfl, h.2.1 rfl rfl rfl, h.2.2⟩

/-- A set DATA module with a halftone source whose samples are all pure
white, and a black QR color. -/
def whiteSampleModule : ModuleCtx :=
  ⟨true, QRType.data, 0, 0, ⟨0, 0, 0, 255⟩, true, false, false,
    fun _ _ => ⟨255, 255, 255, 255⟩⟩

/-- C7 counterexample: a rendered DATA module under halftone does not always
produce 9 sub-cell draw calls — with all-white halftone samples the
`svgEncoder` pass skips the 8 outer sub-cells and draws only the center, one
draw call, not nine. -/
theorem halftone_not_always_nine_subcells :
    svgEncoderModulePass whiteSampleModule =
      [ModuleEvent.subCell 1 1 (FillSpec.rgb (0, 0, 0))] ∧
    (svgEncoderModulePass whiteSampleModule).length = 1 ∧
    (1 : ℕ) ≠ 9 := by
  refine ⟨by decide, by decide, by decide⟩

theorem flatMap_filterMap_length_le (f : ℕ → ℕ → Option ModuleEvent) :
    ((List.range 3).flatMap (fun i => (List.range 3).filterMap (f i))).length ≤ 9 := by
  have hr3 : List.range 3 = [0, 1, 2] := rfl
  rw [hr3]
  simp only [List.flatMap_cons, List.flatMap_nil, List.append_nil, List.length_append]
  have hb : ∀ i, (List.filterMap (f i) [0, 1, 2]).length ≤ 3 := by
    intro i
    simpa using List.length_filterMap_le (f i) [0, 1, 2]
  have h0 := hb 0
  have h1 := hb 1
  have h2 := hb 2
  omega

theorem svgHalftoneEvents_length_le (m : ModuleCtx) :
    (svgHalftoneEvents m).length ≤ 9 :=
  flatMap_filterMap_length_le
    (fun i j => if isBackground (svgSubColor m i j) then none
      else some (ModuleEvent.subCell i j
        (FillSpec.rgb ((svgSubColor m i j).r, (svgSubColor m i j).g, (svgSubColor m i j).b))))

theorem svgoHalftoneEvents_length_le (m : ModuleCtx) :
    (svgoHalftoneEvents m).length ≤ 9 :=
  flatMap_filterMap_length_le
    (fun i j => if i = 1 ∧ j = 1 then
        some (ModuleEvent.subCell i j (if m.hasGradient then FillSpec.gradientUrl
          else FillSpec.rgb (m.qrColor.r, m.qrColor.g, m.qrColor.b)))
      else if (m.htSample (m.mx * 3 + i) (m.my * 3 + j)).a = 0 then none
      else some (ModuleEvent.subCell i j
        (FillSpec.rgb ((m.htSample (m.mx * 3 + i) (m.my * 3 + j)).r,
          (m.htSample (m.mx * 3 + i) (m.my * 3 + j)).g,
          (m.htSample (m.mx * 3 + i) (m.my * 3 + j)).b))))

/-- C7 (amended): when a halftone source is configured and the module is a
rendered DATA module, the `svgEncoder` pass runs the full 3×3 sub-cell loop
but draws only the sub-cells whose resolved color is neither fully
transparent nor pure white — at most 9 draw calls, not always exactly 9 —
each drawn sub-cell using its resolved color; the center sub-cell
(i = 1, j = 1) resolves to the module's QR color regardless of the halftone
sample, so whenever it is drawn it carries the QR color, and in the
`SvgoEncoder` pass (for set modules) the center is always drawn with the QR
color (or the gradient reference). -/
theorem halftone_subcell_spec (m : ModuleCtx) (h1 : m.logoSkip = false)
    (h2 : m.hasHalftone = true) (h3 : m.qrType = QRType.data) :
    svgEncoderModulePass m = svgHalftoneEvents m ∧
    (svgEncoderModulePass m).length ≤ 9 ∧
    (∀ i j f, ModuleEvent.subCell i j f ∈ svgEncoderModulePass m →
      i < 3 ∧ j < 3 ∧ isBackground (svgSubColor m i j) = false ∧
      f = FillSpec.rgb ((svgSubColor m i j).r, (svgSubColor m i j).g, (svgSubColor m i j).b)) ∧
    (svgSubColor m 1 1 = m.qrColor) ∧
    (isBackground m.qrColor = false →
      ModuleEvent.subCell 1 1
        (FillSpec.rgb (m.qrColor.r, m.qrColor.g, m.qrColor.b)) ∈ svgEncoderModulePass m) ∧
    (m.isSet = true → (svgoEncoderModulePass m).length ≤ 9 ∧
      ModuleEvent.subCell 1 1 (if m.hasGradient then FillSpec.gradientUrl
        else FillSpec.rgb (m.qrColor.r, m.qrColor.g, m.qrColor.b)) ∈
          svgoEncoderModulePass m) := by
  have hcenter : svgSubColor m 1 1 = m.qrColor := by
    unfold svgSubColor
    rw [if_pos ⟨rfl, rfl⟩]
  have heq : svgEncoderModulePass m = svgHalftoneEvents m := by
    unfold svgEncoderModulePass
    rw [if_neg (by rw [h1]; exact Bool.false_ne_true), if_pos ⟨h2, h3⟩]
  refine ⟨heq, by rw [heq]; exact svgHalftoneEvents_length_le m, ?_, hcenter, ?_, ?_⟩
  · intro i j f hmem
    rw [heq] at hmem
    unfold svgHalftoneEvents at hmem
    simp only [List.mem_flatMap, List.mem_filterMap, List.mem_range] at hmem
    obtain ⟨i', hi', j', hj', hsome⟩ := hmem
    split at hsome
    · exact absurd hsome (by simp)
    · rename_i hbg
      rw [Bool.not_eq_true] at hbg
      have h' := Option.some.inj hsome
      rw [ModuleEvent.subCell.injEq] at h'
      obtain ⟨rfl, rfl, hf⟩ := h'
      exact ⟨hi', hj', hbg, hf.symm⟩
  · intro hq
    rw [heq]
    unfold svgHalftoneEvents
    simp only [List.mem_flatMap, List.mem_filterMap, List.mem_range]
    refine ⟨1, by norm_num, 1, by norm_num, ?_⟩
    rw [hcenter, if_neg (by rw [hq]; exact Bool.false_ne_true)]
  · intro hset
    have heq' : svgoEncoderModulePass m = svgoHalftoneEvents m := by
      unfold svgoEncoderModulePass
      rw [if_neg (by rw [hset]; decide), if_neg (by rw [h1]; exact Bool.false_ne_true),
        if_pos ⟨h2, by rw [h3]; decide⟩]
    refine ⟨by rw [heq']; exact svgoHalftoneEvents_length_le m, ?_⟩
    rw [heq']
    unfold svgoHalftoneEvents
    simp only [List.mem_flatMap, List.mem_filterMap, List.mem_range]
    exact ⟨1, by norm_num, 1, by norm_num, by rw [if_pos ⟨rfl, rfl⟩]⟩

/-- A set DATA module under halftone with dark gray samples. -/
def darkSampleModule : ModuleCtx :=
  ⟨true, QRType.data, 0, 0, ⟨0, 0, 0, 255⟩, true, false, false,
    fun _ _ => ⟨7, 7, 7, 255⟩⟩

/-- C7 amended-claim witness at a concrete rendered DATA module. -/
theorem halftone_subcell_spec_witness :
    darkSampleModule.logoSkip = false ∧ darkSampleModule.hasHalftone = true ∧
    darkSampleModule.qrType = QRType.data ∧
    (svgEncoderModulePass darkSampleModule).length ≤ 9 ∧
    ModuleEvent.subCell 1 1 (FillSpec.rgb (0, 0, 0)) ∈
      svgEncoderModulePass darkSampleModule := by
  have h := halftone_subcell_spec darkSampleModule rfl rfl rfl
  exact ⟨rfl, rfl, rfl, h.2.1, h.2.2.2.2.1 (by decide)⟩

end GoQrcode
